import Mathlib

/-!
Verification development for `src/agents/flight-finder/flight_search.py`
(flight search over a web-search API: validation, price extraction,
ranking, and three-site comparison).

Modelling conventions (shallow embedding):

* Python strings are Lean `String`s; character-level work is done on
  `List Char`.  Character classes (`\d`, `[A-Z]`, whitespace, case
  mapping) are modelled on the ASCII range; CPython's `re` and `str`
  methods additionally cover non-ASCII Unicode categories, which no
  data produced by this program exercises.
* Python `float` values produced by `float(clean)` are modelled as exact
  rationals (`ℚ`); `float('inf')` is modelled as `none` in an
  `Option ℚ` ordered with `none` on top.  IEEE-754 rounding collapses
  only rationals whose doubles coincide, which cannot happen for the
  currency amounts this program compares.
* The network is an oracle argument: `NetOutcome` is the outcome of the
  single HTTP request `requests.get(...)` (timeout, transport error, or
  a parsed `web.results` payload).  The fixed `time.sleep(0.5)` between
  requests has no effect on returned values and is not modelled.
* Python's `list.sort(key=...)` is a stable ascending sort; it is
  modelled by a stable insertion sort `iSort`, together with theorems
  that the result is key-sorted, a permutation of the input, and
  preserves the relative order inside every key class (these three
  properties determine the stable sort uniquely).
* `min(xs, key=f)` keeps the first element and replaces it only when a
  strictly smaller key appears; this is `minFold`.
* An uncaught Python exception inside `search_all_sites` (which would
  escape the function) is modelled as the `none` value of an `Option`
  result.
-/

namespace FlightSearch

/-! ### Character and list helpers -/

/-- ASCII decimal digit, the `\d` class as exercised by this program. -/
def isDig (c : Char) : Bool := decide ('0' ≤ c) && decide (c ≤ '9')

/-- Character class `[\d,]` of the price regular expressions. -/
def digitOrComma (c : Char) : Bool := isDig c || c == ','

/-- Uppercase ASCII letter, the `[A-Z]` class of the airport-code regex. -/
def isUpperAZ (c : Char) : Bool := decide ('A' ≤ c) && decide (c ≤ 'Z')

/-- List-of-characters version of `str.startswith` / regex literal match. -/
def isPrefixB : List Char → List Char → Bool
  | [], _ => true
  | _ :: _, [] => false
  | a :: as, b :: bs => a == b && isPrefixB as bs

/-- Python's substring test `pat in hay` on character lists. -/
def containsB (pat : List Char) : List Char → Bool
  | [] => isPrefixB pat []
  | c :: t => isPrefixB pat (c :: t) || containsB pat t

/-- Python `str.strip()` (whitespace from both ends), on character lists. -/
def stripWs (cs : List Char) : List Char :=
  ((cs.dropWhile Char.isWhitespace).reverse.dropWhile Char.isWhitespace).reverse

/-- Python `str.lower()` on the ASCII range. -/
def pyLower (s : String) : String := String.mk (s.data.map Char.toLower)

/-- Python `str.upper()` on the ASCII range. -/
def pyUpper (cs : List Char) : List Char := cs.map Char.toUpper

/-- Value of a list of decimal digits (most significant first). -/
def digitsVal (cs : List Char) : Nat :=
  cs.foldl (fun a c => a * 10 + (c.toNat - 48)) 0

/-- Fuel-driven `str.replace` (leftmost, non-overlapping); fuel is the
length of the scanned list, which suffices because every step consumes
at least one character when the pattern is nonempty. -/
def replaceFuel (pat rep : List Char) : Nat → List Char → List Char
  | 0, cs => cs
  | _ + 1, [] => []
  | fuel + 1, c :: rest =>
    if pat.isEmpty then c :: rest
    else if isPrefixB pat (c :: rest) then
      rep ++ replaceFuel pat rep fuel ((c :: rest).drop pat.length)
    else c :: replaceFuel pat rep fuel rest

/-- Python `str.replace(pat, rep)` on strings. -/
def pyReplace (s pat rep : String) : String :=
  String.mk (replaceFuel pat.data rep.data s.data.length s.data)

/-! ### The sort key order

Keys are `Option ℚ`: `some q` is the parsed float `q`, `none` is
`float('inf')`.  `kLt` is the strict `<` Python uses on these keys. -/

/-- Strict comparison of sort keys; `none` plays `float('inf')`. -/
def kLt : Option ℚ → Option ℚ → Bool
  | some x, some y => decide (x < y)
  | some _, none => true
  | none, _ => false

theorem kLt_irrefl (a : Option ℚ) : kLt a a = false := by
  cases a <;> simp [kLt]

theorem kLt_asymm {a b : Option ℚ} (h : kLt a b = true) : kLt b a = false := by
  cases a <;> cases b <;> simp_all [kLt]
  exact le_of_lt h

theorem kLt_false_trans {a b c : Option ℚ}
    (h₁ : kLt a b = false) (h₂ : kLt b c = false) : kLt a c = false := by
  cases a <;> cases b <;> cases c <;> simp_all [kLt]
  exact le_trans h₂ h₁

theorem kLt_false_true {a b c : Option ℚ}
    (h₁ : kLt b a = false) (h₂ : kLt b c = true) : kLt a c = true := by
  cases a <;> cases b <;> cases c <;> simp_all [kLt]
  exact lt_of_le_of_lt h₁ h₂

theorem kLt_true_false {a b c : Option ℚ}
    (h₁ : kLt a b = true) (h₂ : kLt c b = false) : kLt a c = true := by
  cases a <;> cases b <;> cases c <;> simp_all [kLt]
  exact lt_of_lt_of_le h₁ h₂

/-! ### Stable ascending sort (Python `list.sort(key=...)`) -/

/-- Insert `x` before the first element whose key is not strictly below
`key x`; this keeps earlier-input elements first among equal keys. -/
def insertK (key : α → Option ℚ) (x : α) : List α → List α
  | [] => [x]
  | y :: ys => if kLt (key y) (key x) then y :: insertK key x ys else x :: y :: ys

/-- Stable ascending insertion sort by `key`; extensionally equal to
Python's stable `list.sort(key=...)`. -/
def iSort (key : α → Option ℚ) : List α → List α
  | [] => []
  | x :: xs => insertK key x (iSort key xs)

theorem insertK_perm (key : α → Option ℚ) (x : α) (l : List α) :
    (insertK key x l).Perm (x :: l) := by
  induction l with
  | nil => exact List.Perm.refl _
  | cons y ys ih =>
    by_cases h : kLt (key y) (key x) = true
    · simpa [insertK, h] using ((ih.cons y).trans (List.Perm.swap x y ys))
    · simp only [insertK, Bool.not_eq_true] at h
      simp [insertK, h]

theorem iSort_perm (key : α → Option ℚ) (l : List α) :
    (iSort key l).Perm l := by
  induction l with
  | nil => exact List.Perm.refl _
  | cons x xs ih =>
    exact (insertK_perm key x (iSort key xs)).trans (ih.cons x)

theorem mem_insertK {key : α → Option ℚ} {x z : α} {l : List α}
    (h : z ∈ insertK key x l) : z = x ∨ z ∈ l := by
  have := (insertK_perm key x l).mem_iff.mp h
  simpa using this

theorem insertK_sorted {key : α → Option ℚ} {x : α} {l : List α}
    (hl : l.Pairwise (fun a b => kLt (key b) (key a) = false)) :
    (insertK key x l).Pairwise (fun a b => kLt (key b) (key a) = false) := by
  induction l with
  | nil => simp [insertK]
  | cons y ys ih =>
    rw [List.pairwise_cons] at hl
    obtain ⟨hy, hys⟩ := hl
    by_cases h : kLt (key y) (key x) = true
    · simp only [insertK, h, if_true]
      rw [List.pairwise_cons]
      refine ⟨?_, ih hys⟩
      intro z hz
      rcases mem_insertK hz with rfl | hz
      · exact kLt_asymm h
      · exact hy z hz
    · rw [Bool.not_eq_true] at h
      simp only [insertK, h, Bool.false_eq_true, if_false]
      rw [List.pairwise_cons]
      refine ⟨?_, List.Pairwise.cons hy hys⟩
      intro z hz
      rcases List.mem_cons.mp hz with rfl | hz
      · exact h
      · exact kLt_false_trans (hy z hz) h

theorem iSort_sorted (key : α → Option ℚ) (l : List α) :
    (iSort key l).Pairwise (fun a b => kLt (key b) (key a) = false) := by
  induction l with
  | nil => simp [iSort]
  | cons x xs ih => exact insertK_sorted ih

theorem insertK_filter_class (key : α → Option ℚ) (x : α) (l : List α) (k : Option ℚ) :
    (insertK key x l).filter (fun a => decide (key a = k)) =
      if key x = k then x :: l.filter (fun a => decide (key a = k))
      else l.filter (fun a => decide (key a = k)) := by
  induction l with
  | nil => by_cases h : key x = k <;> simp [insertK, List.filter, h]
  | cons y ys ih =>
    by_cases hxy : kLt (key y) (key x) = true
    · simp only [insertK, hxy, if_true]
      by_cases hy : key y = k
      · by_cases hx : key x = k
        · exfalso
          rw [hx, ← hy] at hxy
          rw [kLt_irrefl] at hxy
          exact Bool.false_ne_true hxy
        · simp [List.filter, hy, hx, ih]
      · simp only [List.filter, hy, decide_eq_true_eq, if_neg]
        by_cases hx : key x = k <;> simp [hx, ih, List.filter, hy]
    · simp only [insertK, hxy, if_false]
      by_cases hx : key x = k <;> simp [hx, List.filter]

theorem iSort_filter_class (key : α → Option ℚ) (l : List α) (k : Option ℚ) :
    (iSort key l).filter (fun a => decide (key a = k)) =
      l.filter (fun a => decide (key a = k)) := by
  induction l with
  | nil => rfl
  | cons x xs ih =>
    simp only [iSort, insertK_filter_class, ih]
    by_cases hx : key x = k <;> simp [hx, List.filter]

/-! ### Python `min(xs, key=f)` -/

/-- Fold underlying `min(iterable, key=f)`: replace the current best only
when a strictly smaller key appears, so the first minimum wins ties. -/
def minFold (key : α → Option ℚ) (acc : α) : List α → α
  | [] => acc
  | x :: xs => minFold key (if kLt (key x) (key acc) then x else acc) xs

/-- The Python `min` keeps the first element attaining the minimal key:
the input splits as `pre ++ min :: post` where everything in `pre` has a
strictly larger key and nothing in the whole list has a smaller one. -/
theorem minFold_split (key : α → Option ℚ) :
    ∀ (l : List α) (acc : α), ∃ pre post,
      acc :: l = pre ++ minFold key acc l :: post ∧
      (∀ y ∈ pre, kLt (key (minFold key acc l)) (key y) = true) ∧
      (∀ y ∈ acc :: l, kLt (key y) (key (minFold key acc l)) = false) := by
  intro l
  induction l with
  | nil =>
    intro acc
    exact ⟨[], [], rfl, by simp, by simpa using kLt_irrefl (key acc)⟩
  | cons x xs ih =>
    intro acc
    by_cases hx : kLt (key x) (key acc) = true
    · obtain ⟨pre, post, hsplit, hpre, hall⟩ := ih x
      have hmf : minFold key acc (x :: xs) = minFold key x xs := by
        simp [minFold, hx]
      refine ⟨acc :: pre, post, ?_, ?_, ?_⟩
      · rw [hmf, List.cons_append, ← hsplit]
      · intro y hy
        rw [hmf]
        rcases List.mem_cons.mp hy with rfl | hy
        · have hxm : kLt (key x) (key (minFold key x xs)) = false :=
            hall x (List.mem_cons_self x xs)
          exact kLt_false_true hxm hx
        · exact hpre y hy
      · intro y hy
        rw [hmf]
        rcases List.mem_cons.mp hy with rfl | hy
        · have hxm : kLt (key x) (key (minFold key x xs)) = false :=
            hall x (List.mem_cons_self x xs)
          have : kLt (key (minFold key x xs)) (key y) = true :=
            kLt_false_true hxm hx
          exact kLt_asymm this
        · exact hall y hy
    · rw [Bool.not_eq_true] at hx
      obtain ⟨pre, post, hsplit, hpre, hall⟩ := ih acc
      have hmf : minFold key acc (x :: xs) = minFold key acc xs := by
        simp [minFold, hx]
      rw [hmf]
      have hthird : ∀ y ∈ acc :: x :: xs,
          kLt (key y) (key (minFold key acc xs)) = false := by
        intro y hy
        rcases List.mem_cons.mp hy with rfl | hy
        · exact hall y (List.mem_cons_self _ _)
        · rcases List.mem_cons.mp hy with rfl | hy
          · exact kLt_false_trans hx (hall acc (List.mem_cons_self _ _))
          · exact hall y (List.mem_cons_of_mem _ hy)
      rcases pre with _ | ⟨p, pre⟩
      · simp only [List.nil_append] at hsplit
        injection hsplit with h1 h2
        refine ⟨[], x :: xs, ?_, by simp, hthird⟩
        rw [← h1]
        simp
      · rw [List.cons_append] at hsplit
        injection hsplit with h1 h2
        rw [← h1] at hpre
        have hma : kLt (key (minFold key acc xs)) (key acc) = true :=
          hpre acc (List.mem_cons_self _ _)
        refine ⟨acc :: x :: pre, post, ?_, ?_, hthird⟩
        · simp only [List.cons_append]
          exact congrArg (fun t => acc :: x :: t) h2
        · intro y hy
          rcases List.mem_cons.mp hy with rfl | hy
          · exact hma
          · rcases List.mem_cons.mp hy with rfl | hy
            · exact kLt_true_false hma hx
            · exact hpre y (List.mem_cons_of_mem _ hy)

/-! ### Python `float(...)` on numeric literals

`_parse_price` calls `float(clean)`.  `pyFloat?` models CPython's float
conversion on ASCII numeric literals: optional surrounding whitespace,
optional sign, digits with an optional fractional point (at least one
digit overall), and an optional exponent part.  CPython additionally
accepts the keywords `inf`/`infinity`/`nan` and single underscores
between digits; no string reaching `float` in this program (currency
text with `[$£€,]` struck out) can take those forms, and they are not
modelled.  Exact rationals stand in for IEEE doubles; see the header
note. -/

/-- Split an optional leading sign; `true` means negative. -/
def splitSign : List Char → Bool × List Char
  | '+' :: rest => (false, rest)
  | '-' :: rest => (true, rest)
  | rest => (false, rest)

/-- Parse the optional exponent suffix; `none` on malformed input,
`some e` with the signed exponent otherwise (empty input gives 0). -/
def parseExp : List Char → Option Int
  | [] => some 0
  | e :: rest =>
    if e == 'e' || e == 'E' then
      let sr := splitSign rest
      let ed := sr.2.takeWhile isDig
      if ed.isEmpty || !(sr.2.drop ed.length).isEmpty then none
      else some (if sr.1 then -(digitsVal ed : Int) else (digitsVal ed : Int))
    else none

/-- CPython `float(s)` on ASCII numeric literals, as an exact rational.
The value `(ipart + fpart / 10^|fpart|) · 10^exp` is assembled as one
`mkRat numerator denominator` over `Nat`/`Int` arithmetic. -/
def pyFloat? (s : String) : Option ℚ :=
  let cs := stripWs s.data
  let sc := splitSign cs
  let ip := sc.2.takeWhile isDig
  let r1 := sc.2.drop ip.length
  let fr : List Char × List Char :=
    match r1 with
    | '.' :: rest => (rest.takeWhile isDig, rest.drop (rest.takeWhile isDig).length)
    | _ => ([], r1)
  if ip.isEmpty && fr.1.isEmpty then none
  else
    match parseExp fr.2 with
    | none => none
    | some ex =>
      let mant : Nat := digitsVal ip * 10 ^ fr.1.length + digitsVal fr.1
      let scaled : Nat := mant * (if 0 ≤ ex then 10 ^ ex.toNat else 1)
      let num : Int := if sc.1 then -(scaled : Int) else (scaled : Int)
      let den : Nat := 10 ^ fr.1.length * (if 0 ≤ ex then 1 else 10 ^ (-ex).toNat)
      some (mkRat num den)

/-! ### Price extraction and numeric parsing
(`FlightSearcher._extract_price`, `FlightSearcher._parse_price`) -/

/-- Greedy match of one price pattern at a position known to start with
the currency symbol: the maximal run of `[\d,]`, then optionally `.` and
exactly two digits (`(?:\.\d{2})?`). -/
def priceMatchAt (sym : Char) (rest : List Char) : String :=
  let run := rest.takeWhile digitOrComma
  let after := rest.drop run.length
  let cents : List Char :=
    match after with
    | '.' :: d1 :: d2 :: _ => if isDig d1 && isDig d2 then ['.', d1, d2] else []
    | _ => []
  String.mk (sym :: run ++ cents)

/-- Leftmost match of `sym[\d,]+(?:\.\d{2})?` in the text, as
`re.search` finds it: the first position where the symbol is directly
followed by at least one digit-or-comma character. -/
def searchSym (sym : Char) : List Char → Option String
  | [] => none
  | c :: rest =>
    if c == sym && !(rest.takeWhile digitOrComma).isEmpty then
      some (priceMatchAt sym rest)
    else searchSym sym rest

/-- `FlightSearcher._extract_price`: try the `$` pattern, then `£`,
then `€`; the first pattern class with a match anywhere wins. -/
def extract_price (text : String) : Option String :=
  match searchSym '$' text.data with
  | some m => some m
  | none =>
    match searchSym '£' text.data with
    | some m => some m
    | none => searchSym '€' text.data

/-- The `re.sub` in `_parse_price`: strike out every `$`, `£`, `€`, `,`. -/
def stripCurrency (s : String) : String :=
  String.mk (s.data.filter (fun c => !(c == '$' || c == '£' || c == '€' || c == ',')))

/-- `FlightSearcher._parse_price`: `None` or the empty string (falsy) and
unparsable cleaned text give `float('inf')` (here the key `none`);
otherwise the parsed float as a rational. -/
def parse_price (price : Option String) : Option ℚ :=
  match price with
  | none => none
  | some s => if s == "" then none else pyFloat? (stripCurrency s)

/-! ### Data model (the Pydantic models of the source) -/

/-- `WebsiteName` enum. -/
inductive WebsiteName where
  | skyscanner
  | google
  | booking
  | compare
deriving DecidableEq

/-- `WebsiteConfig`: domain, display name, query template. -/
structure WebsiteConfig where
  domain : String
  name : String
  query_template : String
deriving DecidableEq

/-- `FlightSearchParams` as a plain record; the field validators are
modelled separately (`validateAirportField`, `validate_date`). -/
structure FlightSearchParams where
  origin : String
  destination : String
  depart_date : String
  website : WebsiteName
deriving DecidableEq

/-- `FlightResult`: one extracted hit. -/
structure FlightResult where
  title : String
  url : String
  description : String
  price : Option String
  website : String
deriving DecidableEq

/-- `SearchResponse`: the success value of `search_flights`. -/
structure SearchResponse where
  website : String
  query : String
  results : List FlightResult
  cheapest : Option FlightResult
  count : Nat
deriving DecidableEq

/-- `ComparisonItem`: one row of the cross-site price table. -/
structure ComparisonItem where
  website : String
  cheapest_price : String
  url : String
  is_best : Bool
deriving DecidableEq

/-- `BestDeal`: the overall cheapest option. -/
structure BestDeal where
  website : String
  price : String
  url : String
  title : String
deriving DecidableEq

/-- `ComparisonResponse`: the success value of `search_all_sites`.  The
`mode` field is the literal `"comparison"`. -/
structure ComparisonResponse where
  mode : String
  sites_checked : Nat
  comparison : List ComparisonItem
  best_deal : BestDeal
  all_results : List SearchResponse
deriving DecidableEq

/-- `ErrorResponse`: message, optional suggestion, optional site list. -/
structure ErrorResponse where
  error : String
  suggestion : Option String
  sites_checked : Option (List String)
deriving DecidableEq

/-- One element of `data['web']['results']`, with the `.get('…', '')`
defaults already applied (absent fields are empty strings). -/
structure RawHit where
  title : String
  description : String
  url : String
deriving DecidableEq

/-- Outcome of the one `requests.get` call in `search_flights`:
timeout, transport/HTTP error, or the parsed `web.results` payload. -/
inductive NetOutcome where
  | timeout
  | reqError (msg : String)
  | ok (hits : List RawHit)
deriving DecidableEq

/-- The `WEBSITES` table.  The dict has no entry for `COMPARE`; the
`compare` case below is unreachable because `search_flights` returns
before the lookup when `params.website == COMPARE`. -/
def siteConfigOf : WebsiteName → WebsiteConfig
  | .skyscanner =>
    ⟨"skyscanner.com", "Skyscanner",
      "site:skyscanner.com direct flights {origin} to {destination} {date}"⟩
  | .google =>
    ⟨"google.com/travel/flights", "Google Flights",
      "site:google.com/travel/flights direct flights {origin} to {destination} {date}"⟩
  | .booking =>
    ⟨"booking.com/flights", "Booking.com",
      "site:booking.com/flights direct {origin} to {destination} {date}"⟩
  | .compare =>
    ⟨"skyscanner.com", "Skyscanner",
      "site:skyscanner.com direct flights {origin} to {destination} {date}"⟩

/-! ### Validators (`FlightSearchParams.validate_airport_code`,
`FlightSearchParams.validate_date`) -/

/-- Body of the `validate_airport_code` field validator: strip,
uppercase, then require a full match of `^[A-Z]{3}$`; `some` is the
normalized value, `none` the raised `ValueError`. -/
def validate_airport_code (v : String) : Option String :=
  let u := pyUpper (stripWs v.data)
  if u.length == 3 && u.all isUpperAZ then some (String.mk u) else none

/-- Whole-field validation of `origin`/`destination`: Pydantic applies
the `Field(min_length=3, max_length=3)` constraints to the raw string
before the `after`-mode validator runs. -/
def validateAirportField (s : String) : Option String :=
  if s.length == 3 then validate_airport_code s else none

/-- A `datetime.date`: calendar date with lexicographic comparison. -/
structure Date where
  year : Nat
  month : Nat
  day : Nat
deriving DecidableEq

/-- Python `date.__lt__` (lexicographic on year, month, day). -/
def dateLt (a b : Date) : Bool :=
  decide (a.year < b.year) ||
    (a.year == b.year &&
      (decide (a.month < b.month) ||
        (a.month == b.month && decide (a.day < b.day))))

/-- Gregorian leap year, as `calendar`/`datetime` define it. -/
def isLeap (y : Nat) : Bool :=
  y % 4 == 0 && (!(y % 100 == 0) || y % 400 == 0)

/-- Days in a month, with February depending on the leap rule. -/
def daysInMonth (y m : Nat) : Nat :=
  if m == 2 then (if isLeap y then 29 else 28)
  else if m == 4 || m == 6 || m == 9 || m == 11 then 30 else 31

/-- Split a character list on `'-'` (Python-style: preserves empty
fields, so `"a--b"` gives three fields). -/
def splitDash : List Char → List (List Char)
  | [] => [[]]
  | c :: rest =>
    let r := splitDash rest
    if c == '-' then [] :: r
    else
      match r with
      | [] => [[c]]
      | f :: fs => (c :: f) :: fs

/-- The month field language of CPython's `%m`: `1[0-2]|0[1-9]|[1-9]`,
i.e. one or two digits valued 1–12 (one-digit, unpadded forms allowed). -/
def monthField (cs : List Char) : Option Nat :=
  if cs.all isDig && (cs.length == 1 || cs.length == 2) &&
      decide (1 ≤ digitsVal cs) && decide (digitsVal cs ≤ 12)
  then some (digitsVal cs) else none

/-- The day field language of CPython's `%d`: `3[01]|[12]\d|0[1-9]|[1-9]`,
i.e. one or two digits valued 1–31 (one-digit, unpadded forms allowed). -/
def dayField (cs : List Char) : Option Nat :=
  if cs.all isDig && (cs.length == 1 || cs.length == 2) &&
      decide (1 ≤ digitsVal cs) && decide (digitsVal cs ≤ 31)
  then some (digitsVal cs) else none

/-- Field-level body of `strptimeYMD`, on the dash-split fields. -/
def strptimeFields : List (List Char) → Option Date
  | [ys, ms, ds] =>
    if ys.all isDig && ys.length == 4 then
      match monthField ms, dayField ds with
      | some m, some d =>
        let y := digitsVal ys
        if decide (1 ≤ y) && decide (d ≤ daysInMonth y m)
        then some ⟨y, m, d⟩ else none
      | _, _ => none
    else none
  | _ => none

/-- `datetime.strptime(v, '%Y-%m-%d')`: a 4-digit year, `'-'`, a 1–2
digit month, `'-'`, a 1–2 digit day, with nothing left over; then the
`datetime` constructor enforces year ≥ 1 and a calendar-valid day. -/
def strptimeYMD (s : String) : Option Date :=
  strptimeFields (splitDash s.data)

/-- Result of `validate_date`: the validated string, or which of the two
`ValueError`s was raised. -/
inductive DateResult where
  | ok (s : String)
  | invalidDateFormat
  | dateInPast
deriving DecidableEq

/-- Body of the `validate_date` field validator, relative to the current
local calendar day `today` (`datetime.now().date()`). -/
def validate_date (today : Date) (v : String) : DateResult :=
  match strptimeYMD v with
  | none => .invalidDateFormat
  | some d => if dateLt d today then .dateInPast else .ok v

/-- Field-level body of `strictYMD`, on the dash-split fields. -/
def strictFields : List (List Char) → Option Date
  | [ys, ms, ds] =>
    if ys.all isDig && ys.length == 4 && ms.all isDig && ms.length == 2 &&
        ds.all isDig && ds.length == 2 then
      let y := digitsVal ys
      let m := digitsVal ms
      let d := digitsVal ds
      if decide (1 ≤ y) && decide (1 ≤ m) && decide (m ≤ 12) &&
          decide (1 ≤ d) && decide (d ≤ daysInMonth y m)
      then some ⟨y, m, d⟩ else none
    else none
  | _ => none

/-- Strict rendering of the claim's "YYYY-MM-DD format": exactly four,
two and two digits separated by dashes, denoting a calendar-valid date
with year ≥ 1.  This definition follows the claim's words, for
comparison against `strptimeYMD` which follows the code. -/
def strictYMD (s : String) : Option Date :=
  strictFields (splitDash s.data)

/-! ### Result extraction (`FlightSearcher._parse_results`) -/

/-- `description[:200] + '...'` when the description exceeds 200
characters, otherwise unchanged. -/
def truncateDesc (d : String) : String :=
  if d.length > 200 then String.mk (d.data.take 200) ++ "..." else d

/-- Processing of one raw hit inside the `_parse_results` loop: skip on
empty URL, extract a price from `title + ' ' + description`, keep only
in-domain hits (`site_config.domain in url.lower()`), truncate the
description, and skip hits whose `FlightResult` construction fails (the
Pydantic URL validator requires an `http://`/`https://` scheme). -/
def convHit (cfg : WebsiteConfig) (item : RawHit) : Option FlightResult :=
  if item.url == "" then none
  else
    let price := extract_price (item.title ++ " " ++ item.description)
    if containsB cfg.domain.data (pyLower item.url).data then
      if isPrefixB "http://".data item.url.data ||
          isPrefixB "https://".data item.url.data then
        some ⟨item.title, item.url, truncateDesc item.description, price, cfg.name⟩
      else none
    else none

/-- `FlightSearcher._parse_results`: fold `convHit` over the raw hits,
skipping the `none`s. -/
def parse_results (hits : List RawHit) (cfg : WebsiteConfig) : List FlightResult :=
  hits.filterMap (convHit cfg)

/-! ### Ranking (`search_flights`, lines 214–227) -/

/-- Sort key of one result: `self._parse_price(x.price)`. -/
def resultKey (r : FlightResult) : Option ℚ := parse_price r.price

/-- Python truthiness of `r.price` (`if r.price`): present and nonempty. -/
def priceTruthy (r : FlightResult) : Bool :=
  match r.price with
  | none => false
  | some s => !(s == "")

/-- `results_with_price`, already sorted by `_parse_price` (the source
sorts the priced list in place before using it). -/
def rankPriced (l : List FlightResult) : List FlightResult :=
  iSort resultKey (l.filter priceTruthy)

/-- `results_without_price` in original order. -/
def rankUnpriced (l : List FlightResult) : List FlightResult :=
  l.filter (fun r => !priceTruthy r)

/-- `final_results = (results_with_price + results_without_price)[:10]`. -/
def finalResults (l : List FlightResult) : List FlightResult :=
  (rankPriced l ++ rankUnpriced l).take 10

/-- `cheapest = results_with_price[0] if results_with_price else None`. -/
def cheapestOf (l : List FlightResult) : Option FlightResult :=
  (rankPriced l).head?

/-! ### Single-site search (`FlightSearcher.search_flights`) -/

/-- Query building: `site_config.query_template.format(origin=…,
destination=…, date=…)`.  The template holds each placeholder once and
the substituted values contain no braces, so `str.format` coincides
with successive replacement. -/
def buildQuery (cfg : WebsiteConfig) (p : FlightSearchParams) : String :=
  pyReplace (pyReplace (pyReplace cfg.query_template
    "{origin}" p.origin) "{destination}" p.destination) "{date}" p.depart_date

/-- The `SearchResponse` built on the success path. -/
def okResponse (cfg : WebsiteConfig) (query : String) (hits : List RawHit) :
    SearchResponse :=
  let results := parse_results hits cfg
  ⟨cfg.name, query, finalResults results, cheapestOf results,
    (finalResults results).length⟩

/-- `ErrorResponse` of the `COMPARE` guard. -/
def compareModeError : ErrorResponse :=
  ⟨"Use search_all_sites() for comparison mode",
    some "Call search_all_sites() instead of search_flights()", none⟩

/-- `ErrorResponse` of the timeout handler (`self.timeout` is 30). -/
def timeoutError : ErrorResponse :=
  ⟨"Search request timed out after 30 seconds",
    some "Try again or check your internet connection", none⟩

/-- `ErrorResponse` of the `RequestException` handler. -/
def networkError (msg : String) : ErrorResponse :=
  ⟨"Network error: " ++ msg,
    some "Check your internet connection and API key", none⟩

/-- `FlightSearcher.search_flights`, with the outcome of its one HTTP
request supplied as the oracle `net`. -/
def searchFlights (net : NetOutcome) (p : FlightSearchParams) :
    SearchResponse ⊕ ErrorResponse :=
  match p.website with
  | .compare => .inr compareModeError
  | w =>
    let cfg := siteConfigOf w
    match net with
    | .timeout => .inr timeoutError
    | .reqError msg => .inr (networkError msg)
    | .ok hits => .inl (okResponse cfg (buildQuery cfg p) hits)

/-! ### Multi-site comparison (`FlightSearcher.search_all_sites`) -/

/-- `sites_to_check`, in the fixed source order. -/
def sitesToCheck : List WebsiteName := [.skyscanner, .google, .booking]

/-- The `FlightSearchParams` rebuilt inside the loop for one site.  The
source reconstructs the Pydantic model, re-running the validators; on
fields coming from an already-validated params object they are the
identity, so this is a record rebuild. -/
def withSite (p : FlightSearchParams) (w : WebsiteName) : FlightSearchParams :=
  ⟨p.origin, p.destination, p.depart_date, w⟩

/-- The three per-site search parameter records, in issue order. -/
def issuedSearches (p : FlightSearchParams) : List FlightSearchParams :=
  sitesToCheck.map (withSite p)

/-- `all_results`: the per-site outcomes retained by the loop, i.e.
successful responses whose `cheapest` is set (a Pydantic model instance
is always truthy, so `result.cheapest` tests only for `None`). -/
def retainedOutcomes (net : WebsiteName → NetOutcome) (p : FlightSearchParams) :
    List SearchResponse :=
  sitesToCheck.filterMap fun site =>
    match searchFlights (net site) (withSite p site) with
    | .inl r => if r.cheapest.isSome then some r else none
    | .inr _ => none

/-- `ErrorResponse` of the no-results branch of `search_all_sites`. -/
def noResultsError : ErrorResponse :=
  ⟨"No results found on any of the three sites",
    some "Try different dates or check the sites directly",
    some ["Skyscanner", "Google Flights", "Booking.com"]⟩

/-- Sort key of a retained outcome, `self._parse_price(x.cheapest.price)`.
A `None` cheapest would raise an `AttributeError` in the source; every
retained outcome has `cheapest` set, so the `none` fallback here is
unreachable where this key is used. -/
def respKey (r : SearchResponse) : Option ℚ :=
  parse_price (r.cheapest.bind FlightResult.price)

/-- Sort key of a comparison row, `self._parse_price(x.cheapest_price)`. -/
def rowKey (it : ComparisonItem) : Option ℚ := parse_price (some it.cheapest_price)

/-- One `ComparisonItem(...)` construction; `none` models the Pydantic
`ValidationError` raised if `cheapest_price` were `None` (it never is:
retained outcomes carry a priced cheapest). -/
def mkRow (bestSite : String) (r : SearchResponse) : Option ComparisonItem :=
  r.cheapest.bind fun c =>
    c.price.map fun pr => ⟨r.website, pr, c.url, r.website == bestSite⟩

/-- The comparison-row loop: the first failing construction aborts the
whole call (the exception is uncaught), hence `Option`. -/
def rowsFor (bestSite : String) : List SearchResponse → Option (List ComparisonItem)
  | [] => some []
  | r :: rs =>
    match mkRow bestSite r with
    | none => none
    | some row => (rowsFor bestSite rs).map (fun t => row :: t)

/-- The `BestDeal(...)` construction at the end of `search_all_sites`. -/
def mkBest (r : SearchResponse) : Option BestDeal :=
  r.cheapest.bind fun c =>
    c.price.map fun pr => ⟨r.website, pr, c.url, c.title⟩

/-- Body of `search_all_sites` past the retention loop, on a nonempty
`all_results = a :: rest`. -/
def comparisonOf (a : SearchResponse) (rest : List SearchResponse) :
    Option (ComparisonResponse ⊕ ErrorResponse) :=
  let best := minFold respKey a rest
  match rowsFor best.website ((a :: rest).filter fun r => r.cheapest.isSome) with
  | none => none
  | some rows =>
    match mkBest best with
    | none => none
    | some bd =>
      some (.inl ⟨"comparison", (a :: rest).length, iSort rowKey rows, bd, a :: rest⟩)

/-- `FlightSearcher.search_all_sites`, with the per-site request
outcomes supplied as the oracle `net`; the overall `none` models an
uncaught exception escaping the function (proved unreachable). -/
def searchAllSites (net : WebsiteName → NetOutcome) (p : FlightSearchParams) :
    Option (ComparisonResponse ⊕ ErrorResponse) :=
  match retainedOutcomes net p with
  | [] => some (.inr noResultsError)
  | a :: rest => comparisonOf a rest

/-! ### Helper lemmas about truthiness and the success path -/

theorem priceTruthy_eq_isSome {r : FlightResult} (h : r.price ≠ some "") :
    priceTruthy r = r.price.isSome := by
  cases hp : r.price with
  | none => simp [priceTruthy, hp]
  | some s =>
    have hs : s ≠ "" := fun he => h (hp.trans (by rw [he]))
    simp [priceTruthy, hp, hs]

theorem priceFalsy_eq_isNone {r : FlightResult} (h : r.price ≠ some "") :
    (!priceTruthy r) = r.price.isNone := by
  cases hp : r.price with
  | none => simp [priceTruthy, hp]
  | some s =>
    have hs : s ≠ "" := fun he => h (hp.trans (by rw [he]))
    simp [priceTruthy, hp, hs]

theorem priceTruthy_some {r : FlightResult} (h : priceTruthy r = true) :
    ∃ pr, r.price = some pr ∧ pr ≠ "" := by
  cases hp : r.price with
  | none => simp [priceTruthy, hp] at h
  | some s =>
    refine ⟨s, rfl, ?_⟩
    simp [priceTruthy, hp] at h
    exact h

theorem mem_rankPriced_truthy {l : List FlightResult} {c : FlightResult}
    (h : c ∈ rankPriced l) : priceTruthy c = true := by
  have := (iSort_perm resultKey (l.filter priceTruthy)).mem_iff.mp h
  exact (List.mem_filter.mp this).2

theorem cheapestOf_head {l : List FlightResult} {c : FlightResult}
    (h : cheapestOf l = some c) :
    (finalResults l).head? = some c ∧ c ∈ finalResults l ∧ priceTruthy c = true := by
  rcases hrp : rankPriced l with _ | ⟨a, t⟩
  · rw [cheapestOf, hrp] at h
    simp at h
  · rw [cheapestOf, hrp] at h
    simp only [List.head?] at h
    injection h with ha
    subst ha
    have hfin : finalResults l = a :: (t ++ rankUnpriced l).take 9 := by
      rw [finalResults, hrp]
      rfl
    refine ⟨by rw [hfin]; rfl, by rw [hfin]; exact List.mem_cons_self _ _, ?_⟩
    exact mem_rankPriced_truthy (hrp ▸ List.mem_cons_self a t)

theorem searchFlights_inl {net : NetOutcome} {p : FlightSearchParams}
    {r : SearchResponse} (h : searchFlights net p = Sum.inl r) :
    p.website ≠ WebsiteName.compare ∧ ∃ hits, net = NetOutcome.ok hits ∧
      r = okResponse (siteConfigOf p.website)
        (buildQuery (siteConfigOf p.website) p) hits := by
  cases hp : p.website <;> cases hn : net <;> simp_all [searchFlights]

theorem okResponse_invariant (cfg : WebsiteConfig) (q : String) (hits : List RawHit) :
    (okResponse cfg q hits).count = (okResponse cfg q hits).results.length ∧
    (okResponse cfg q hits).count ≤ 10 ∧
    ∀ c, (okResponse cfg q hits).cheapest = some c →
      (okResponse cfg q hits).results.head? = some c ∧
      c ∈ (okResponse cfg q hits).results ∧ c.price.isSome = true := by
  refine ⟨rfl, ?_, ?_⟩
  · show (finalResults (parse_results hits cfg)).length ≤ 10
    rw [finalResults, List.length_take]
    exact Nat.min_le_left _ _
  · intro c hc
    have hc' : cheapestOf (parse_results hits cfg) = some c := hc
    obtain ⟨h1, h2, h3⟩ := cheapestOf_head hc'
    obtain ⟨pr, hpr, _⟩ := priceTruthy_some h3
    exact ⟨h1, h2, by simp [hpr]⟩

/-! ### Claim C10 -/

/-- C10: every successfully returned `SearchResponse` has `count` equal
to the length of its `results` list, that length is at most 10, and a
non-`None` `cheapest` is the first element of `results` (hence a member)
and carries a non-`None` price. -/
theorem search_flights_response_invariant (net : NetOutcome)
    (p : FlightSearchParams) (r : SearchResponse)
    (h : searchFlights net p = Sum.inl r) :
    r.count = r.results.length ∧ r.count ≤ 10 ∧
      ∀ c, r.cheapest = some c →
        r.results.head? = some c ∧ c ∈ r.results ∧ c.price.isSome = true := by
  obtain ⟨-, hits, -, hr⟩ := searchFlights_inl h
  subst hr
  exact okResponse_invariant _ _ _

/-- Concrete network payload for the C10 witness: one in-domain
Skyscanner hit carrying a `$485` price. -/
def c10net : NetOutcome :=
  .ok [⟨"Flights JFK to LHR", "Cheap direct flights from $485 today",
    "https://www.skyscanner.com/transport/flights"⟩]

/-- Concrete parameters shared by several witnesses. -/
def pJfkLhr : FlightSearchParams := ⟨"JFK", "LHR", "2026-05-15", .skyscanner⟩

/-- The response `searchFlights` produces on `c10net`. -/
def c10resp : SearchResponse :=
  okResponse (siteConfigOf .skyscanner)
    (buildQuery (siteConfigOf .skyscanner) pJfkLhr)
    [⟨"Flights JFK to LHR", "Cheap direct flights from $485 today",
      "https://www.skyscanner.com/transport/flights"⟩]

/-- Witness instantiating C10 on a concrete successful search. -/
theorem search_flights_response_invariant_witness :
    c10resp.count = c10resp.results.length ∧ c10resp.count ≤ 10 ∧
      ∀ c, c10resp.cheapest = some c →
        c10resp.results.head? = some c ∧ c ∈ c10resp.results ∧
          c.price.isSome = true :=
  search_flights_response_invariant c10net pJfkLhr c10resp (by decide)

/-! ### Claim C2 -/

/-- C2: on any list of extracted results (no extracted price is the
empty string), the ranked list is the stable ascending sort of the
priced results — a permutation of them, key-sorted, preserving original
relative order inside every equal-key class — followed by the unpriced
results in original order, capped to the first 10 entries; the cheapest
result is the head of the sorted priced sublist, and is `None` exactly
when no result has a price. -/
theorem ranker_correct (l : List FlightResult)
    (h : ∀ r ∈ l, r.price ≠ some "") :
    (rankPriced l).Perm (l.filter (fun r => r.price.isSome)) ∧
    (rankPriced l).Pairwise (fun a b => kLt (resultKey b) (resultKey a) = false) ∧
    (∀ k, (rankPriced l).filter (fun r => decide (resultKey r = k)) =
      (l.filter (fun r => r.price.isSome)).filter
        (fun r => decide (resultKey r = k))) ∧
    finalResults l = (rankPriced l ++ l.filter (fun r => r.price.isNone)).take 10 ∧
    cheapestOf l = (rankPriced l).head? ∧
    (cheapestOf l = none ↔ ∀ r ∈ l, r.price = none) := by
  have hfilter : l.filter priceTruthy = l.filter (fun r => r.price.isSome) :=
    List.filter_congr (fun r hr => priceTruthy_eq_isSome (h r hr))
  have hunp : l.filter (fun r => !priceTruthy r) =
      l.filter (fun r => r.price.isNone) :=
    List.filter_congr (fun r hr => priceFalsy_eq_isNone (h r hr))
  refine ⟨?_, ?_, ?_, ?_, rfl, ?_⟩
  · rw [rankPriced, hfilter]
    exact iSort_perm _ _
  · exact iSort_sorted _ _
  · intro k
    rw [rankPriced, iSort_filter_class, hfilter]
  · rw [finalResults, rankUnpriced, hunp]
  · constructor
    · intro hc
      have hnil : rankPriced l = [] := by
        rwa [cheapestOf, List.head?_eq_none_iff] at hc
      have hlen : (l.filter priceTruthy).length = 0 := by
        have := (iSort_perm resultKey (l.filter priceTruthy)).length_eq
        rw [rankPriced] at hnil
        rw [← this, hnil]
        rfl
      have hfn : l.filter priceTruthy = [] := List.length_eq_zero.mp hlen
      rw [List.filter_eq_nil_iff] at hfn
      intro r hr
      have := hfn r hr
      cases hp : r.price with
      | none => rfl
      | some s =>
        exfalso
        have hs : s ≠ "" := fun he => h r hr (hp.trans (by rw [he]))
        rw [priceTruthy_eq_isSome (h r hr), hp] at this
        simp at this
    · intro hall
      have hfn : l.filter priceTruthy = [] := by
        rw [List.filter_eq_nil_iff]
        intro r hr
        simp [priceTruthy, hall r hr]
      rw [cheapestOf, rankPriced, hfn]
      rfl

/-- Concrete input for the C2 witness: the spec's ranking example, four
results priced `$500`, `$200`, none, `$200`. -/
def c2ex : List FlightResult :=
  [⟨"first", "https://a", "", some "$500", "S"⟩,
   ⟨"second", "https://b", "", some "$200", "S"⟩,
   ⟨"third", "https://c", "", none, "S"⟩,
   ⟨"fourth", "https://d", "", some "$200", "S"⟩]

/-- Witness instantiating C2 on the spec's ranking example; the first
conjunct checks that the concrete output order is
`[$200 (first), $200 (second), $500, none]`. -/
theorem ranker_correct_witness :
    finalResults c2ex =
      [⟨"second", "https://b", "", some "$200", "S"⟩,
       ⟨"fourth", "https://d", "", some "$200", "S"⟩,
       ⟨"first", "https://a", "", some "$500", "S"⟩,
       ⟨"third", "https://c", "", none, "S"⟩] ∧
    (rankPriced c2ex).Perm (c2ex.filter (fun r => r.price.isSome)) :=
  ⟨by decide, (ranker_correct c2ex (by decide)).1⟩

/-! ### Claim C3 -/

/-- C3 (code defect exhibit): the `validate_airport_code` body alone
normalizes `"jfk "` to `"JFK"` as the spec describes, but the field as
declared rejects it: the `Field(min_length=3, max_length=3)` constraints
run on the raw string before the `after`-mode validator can strip it, so
the 4-character `"jfk "` never reaches the trim/uppercase step.  Unpadded
case variants such as `"jfk"` still normalize. -/
theorem airport_code_field_rejects_padded :
    validate_airport_code "jfk " = some "JFK" ∧
    validateAirportField "jfk " = none ∧
    validateAirportField "jfk" = some "JFK" ∧
    validateAirportField "JFK" = some "JFK" := by decide

/-! ### Claim C4 -/

/-- C4 counterexample: on the spec's own example text the extractor
returns `"$200,"` — the greedy `[\d,]+` class also consumes the comma
after `200` — not the claimed `"$200"`. -/
theorem extract_price_comma_counterexample :
    extract_price "Flights from $200, also listed at £150" = some "$200," ∧
    (some "$200," : Option String) ≠ some "$200" := by decide

/-- Shape of every extracted price: a currency symbol directly followed
by a nonempty run of digit-or-comma characters (commas may sit anywhere
in the run, including at its end), optionally followed by a dot and
exactly two digits.  This renders the amended claim's pattern. -/
def priceShape (m : String) : Prop :=
  ∃ sym run cents, m.data = sym :: (run ++ cents) ∧
    (sym = '$' ∨ sym = '£' ∨ sym = '€') ∧
    run ≠ [] ∧ (∀ c ∈ run, digitOrComma c = true) ∧
    (cents = [] ∨ ∃ d1 d2, cents = ['.', d1, d2] ∧
      isDig d1 = true ∧ isDig d2 = true)

theorem searchSym_shape {sym : Char} (hsym : sym = '$' ∨ sym = '£' ∨ sym = '€') :
    ∀ {cs : List Char} {m : String}, searchSym sym cs = some m → priceShape m := by
  intro cs
  induction cs with
  | nil => intro m h; simp [searchSym] at h
  | cons c rest ih =>
    intro m h
    rw [searchSym] at h
    by_cases hc : (c == sym && !(rest.takeWhile digitOrComma).isEmpty) = true
    · rw [if_pos hc] at h
      injection h with hm
      subst hm
      rw [Bool.and_eq_true] at hc
      obtain ⟨hce, hne⟩ := hc
      refine ⟨sym, rest.takeWhile digitOrComma,
        (match rest.drop (rest.takeWhile digitOrComma).length with
          | '.' :: d1 :: d2 :: _ =>
            if isDig d1 && isDig d2 then ['.', d1, d2] else []
          | _ => []), rfl, hsym, ?_, ?_, ?_⟩
      · intro hemp
        rw [hemp] at hne
        simp at hne
      · intro ch hch
        exact List.mem_takeWhile_imp hch
      · split
        case _ =>
          split
          case _ hd =>
            rw [Bool.and_eq_true] at hd
            exact Or.inr ⟨_, _, rfl, hd.1, hd.2⟩
          case _ => exact Or.inl rfl
        case _ => exact Or.inl rfl
    · rw [if_neg hc] at h
      exact ih h

/-- C4 (amended): price extraction scans for a `$` match, then `£`,
then `€`, where each match is the currency symbol directly followed by a
maximal nonempty run of digit-or-comma characters — so a comma adjacent
to the digits is swallowed into the match — optionally extended by a dot
and exactly two digits; the first pattern class matching anywhere in the
text wins and `none` is returned when none matches.  On the spec's
example the result is `"$200,"` (trailing comma included); `"£150"`
alone yields `"£150"`; text with no currency symbol yields `none`. -/
theorem extract_price_amended :
    (∀ t : String, (searchSym '$' t.data).isSome = true →
      extract_price t = searchSym '$' t.data) ∧
    (∀ t : String, searchSym '$' t.data = none →
      (searchSym '£' t.data).isSome = true →
      extract_price t = searchSym '£' t.data) ∧
    (∀ t : String, searchSym '$' t.data = none → searchSym '£' t.data = none →
      extract_price t = searchSym '€' t.data) ∧
    (∀ (t : String) (m : String), extract_price t = some m → priceShape m) ∧
    extract_price "Flights from $200, also listed at £150" = some "$200," ∧
    extract_price "only £150 here" = some "£150" ∧
    extract_price "no currency at all" = none := by
  refine ⟨?_, ?_, ?_, ?_, by decide, by decide, by decide⟩
  · intro t h
    rw [extract_price]
    cases hd : searchSym '$' t.data with
    | none => rw [hd] at h; simp at h
    | some m => rfl
  · intro t hd h
    rw [extract_price, hd]
    cases hp : searchSym '£' t.data with
    | none => rw [hp] at h; simp at h
    | some m => rfl
  · intro t hd hp
    rw [extract_price, hd, hp]
  · intro t m h
    rw [extract_price] at h
    cases hd : searchSym '$' t.data with
    | some x =>
      rw [hd] at h
      injection h with hx
      subst hx
      exact searchSym_shape (Or.inl rfl) hd
    | none =>
      rw [hd] at h
      cases hp : searchSym '£' t.data with
      | some x =>
        rw [hp] at h
        injection h with hx
        subst hx
        exact searchSym_shape (Or.inr (Or.inl rfl)) hp
      | none =>
        rw [hp] at h
        exact searchSym_shape (Or.inr (Or.inr rfl)) h

/-- Witness instantiating the amended C4: on a text with both symbols
the `$` class wins, and the extracted value has the match shape. -/
theorem extract_price_amended_witness :
    extract_price "pay £9 or $5" = searchSym '$' ("pay £9 or $5").data ∧
    priceShape "$5" :=
  ⟨extract_price_amended.1 "pay £9 or $5" (by decide),
    extract_price_amended.2.2.2.1 "pay £9 or $5" "$5" (by decide)⟩

/-! ### Claim C5 -/

/-- C5: numeric price parsing strips the currency symbols and commas
and parses the remainder as a decimal number; an absent price, the
empty (falsy) price string, or a remainder `float` rejects all map to
positive infinity (the top key `none`), which sorts after every parsed
price; `"$1,234.56"` parses to `1234.56`. -/
theorem parse_price_correct :
    parse_price none = none ∧
    parse_price (some "$1,234.56") = some (1234.56 : ℚ) ∧
    (∀ s : String, pyFloat? (stripCurrency s) = none →
      parse_price (some s) = none) ∧
    (∀ (s : String) (q : ℚ), pyFloat? (stripCurrency s) = some q → s ≠ "" →
      parse_price (some s) = some q) ∧
    (∀ q : ℚ, kLt (some q) none = true) := by
  refine ⟨rfl, ?_, ?_, ?_, fun q => rfl⟩
  · have h1 : parse_price (some "$1,234.56") = some (mkRat 123456 100) := by
      decide
    rw [h1, Rat.mkRat_eq_div]
    norm_num
  · intro s hs
    by_cases he : (s == "") = true <;> simp [parse_price, he, hs]
  · intro s q hq hne
    have he : (s == "") = false := by
      simp [hne]
    simp [parse_price, he, hq]

/-- Witness instantiating C5: an unparsable price text maps to the
infinite key, a plain dollar amount parses to its value. -/
theorem parse_price_correct_witness :
    parse_price (some "call for price") = none ∧
    parse_price (some "$485") = some (485 : ℚ) :=
  ⟨parse_price_correct.2.2.1 "call for price" (by decide),
    parse_price_correct.2.2.2.1 "$485" 485 (by decide) (by decide)⟩

/-! ### Claim C7 -/

/-- C7 counterexample: `"2026-5-15"` is not in the four-two-two digit
`YYYY-MM-DD` shape (rendered by `strictYMD`), so the claim says the
validator must reject it; the code accepts it, because CPython's
`strptime` `%m`/`%d` also match unpadded one-digit fields. -/
theorem validate_date_lenient_counterexample :
    strictYMD "2026-5-15" = none ∧
    validate_date ⟨2025, 1, 1⟩ "2026-5-15" = DateResult.ok "2026-5-15" := by
  decide

/-- C7 (amended): the validator fails with `InvalidDateFormat` exactly
when the string does not parse under `strptime('%Y-%m-%d')` — which
accepts the strict `YYYY-MM-DD` shape and additionally unpadded one- or
two-digit months and days — fails with `DateInPast` when the parsed
date is strictly before the current day, and otherwise succeeds
returning the input string unchanged. -/
theorem validate_date_amended (today : Date) (s : String) :
    (strptimeYMD s = none →
      validate_date today s = DateResult.invalidDateFormat) ∧
    (∀ d, strptimeYMD s = some d → dateLt d today = true →
      validate_date today s = DateResult.dateInPast) ∧
    (∀ d, strptimeYMD s = some d → dateLt d today = false →
      validate_date today s = DateResult.ok s) ∧
    (∀ d, strictYMD s = some d → strptimeYMD s = some d) := by
  refine ⟨?_, ?_, ?_, ?_⟩
  · intro h
    simp [validate_date, h]
  · intro d h hlt
    simp [validate_date, h, hlt]
  · intro d h hlt
    simp [validate_date, h, hlt]
  · intro d h
    rw [strictYMD] at h
    rw [strptimeYMD]
    rcases hfs : splitDash s.data with _ | ⟨ys, _ | ⟨ms, _ | ⟨ds, _ | ⟨x4, t⟩⟩⟩⟩ <;>
      rw [hfs] at h
    · exact absurd h (by simp [strictFields])
    · exact absurd h (by simp [strictFields])
    · exact absurd h (by simp [strictFields])
    · rw [strictFields] at h
      rw [strptimeFields]
      split at h
      case isTrue hb =>
        simp only [Bool.and_eq_true] at hb
        obtain ⟨⟨⟨⟨⟨hya, hy4⟩, hma⟩, hm2⟩, hda⟩, hd2⟩ := hb
        dsimp only at h
        split at h
        case isTrue hr =>
          injection h with hd
          simp only [Bool.and_eq_true, decide_eq_true_eq] at hr
          obtain ⟨⟨⟨⟨h1y, h1m⟩, h12⟩, h1d⟩, hdim⟩ := hr
          have hmf : monthField ms = some (digitsVal ms) := by
            rw [monthField, if_pos]
            simp only [Bool.and_eq_true, decide_eq_true_eq]
            exact ⟨⟨⟨hma, by rw [hm2]; simp⟩, h1m⟩, h12⟩
          have hdf : dayField ds = some (digitsVal ds) := by
            rw [dayField, if_pos]
            simp only [Bool.and_eq_true, decide_eq_true_eq]
            refine ⟨⟨⟨hda, by rw [hd2]; simp⟩, h1d⟩, ?_⟩
            calc digitsVal ds ≤ daysInMonth (digitsVal ys) (digitsVal ms) := hdim
              _ ≤ 31 := by
                rw [daysInMonth]
                split
                · split <;> omega
                · split <;> omega
          rw [if_pos (by rw [hya, hy4]; simp), hmf, hdf]
          dsimp only
          rw [if_pos (by simp only [Bool.and_eq_true, decide_eq_true_eq]; exact ⟨h1y, hdim⟩)]
          rw [← hd]
        case isFalse => exact absurd h (by simp)
      case isFalse => exact absurd h (by simp)
    · exact absurd h (by simp [strictFields])

/-- Witness instantiating the amended C7 on a concrete future date in
the strict format. -/
theorem validate_date_amended_witness :
    validate_date ⟨2025, 1, 1⟩ "2026-05-15" = DateResult.ok "2026-05-15" :=
  (validate_date_amended ⟨2025, 1, 1⟩ "2026-05-15").2.2.1
    ⟨2026, 5, 15⟩ (by decide) (by decide)

/-! ### Claim C6 -/

/-- C6: a per-site search that fails, or succeeds without a priced
cheapest, contributes nothing to `all_results`; the comparator returns
the `NoResultsAnySite` error exactly when no site produced a priced
outcome, that error names all three attempted sites, and no other error
value is ever returned by `search_all_sites`. -/
theorem no_results_any_site (net : WebsiteName → NetOutcome)
    (p : FlightSearchParams) :
    (searchAllSites net p = some (Sum.inr noResultsError) ↔
      ∀ site ∈ sitesToCheck, ∀ r,
        searchFlights (net site) (withSite p site) = Sum.inl r →
          r.cheapest = none) ∧
    (∀ e, searchAllSites net p = some (Sum.inr e) → e = noResultsError) ∧
    noResultsError.sites_checked =
      some ["Skyscanner", "Google Flights", "Booking.com"] ∧
    (∀ r, r ∈ retainedOutcomes net p ↔ ∃ site ∈ sitesToCheck,
      searchFlights (net site) (withSite p site) = Sum.inl r ∧
        r.cheapest.isSome = true) := by
  have hnil : retainedOutcomes net p = [] ↔
      ∀ site ∈ sitesToCheck, ∀ r,
        searchFlights (net site) (withSite p site) = Sum.inl r →
          r.cheapest = none := by
    rw [retainedOutcomes, List.filterMap_eq_nil_iff]
    constructor
    · intro hall site hs r hr
      have h0 := hall site hs
      rw [hr] at h0
      dsimp only at h0
      by_cases hc : r.cheapest.isSome = true
      · rw [if_pos hc] at h0
        exact absurd h0 (by simp)
      · exact Option.not_isSome_iff_eq_none.mp hc
    · intro hall site hs
      cases hsf : searchFlights (net site) (withSite p site) with
      | inr e => rfl
      | inl r =>
        have h0 := hall site hs r hsf
        dsimp only
        rw [h0]
        simp
  have hcons : ∀ (a : SearchResponse) (rest : List SearchResponse),
      retainedOutcomes net p = a :: rest →
      ∀ e, searchAllSites net p ≠ some (Sum.inr e) := by
    intro a rest hr e
    rw [searchAllSites, hr]
    show comparisonOf a rest ≠ _
    rw [comparisonOf]
    cases rowsFor (minFold respKey a rest).website
        ((a :: rest).filter fun r => r.cheapest.isSome) with
    | none => simp
    | some rows =>
      cases mkBest (minFold respKey a rest) with
      | none => simp
      | some bd => simp
  refine ⟨?_, ?_, rfl, ?_⟩
  · constructor
    · intro he
      rw [← hnil]
      rcases hr : retainedOutcomes net p with _ | ⟨a, rest⟩
      · rfl
      · exact absurd he (hcons a rest hr _)
    · intro hall
      rw [searchAllSites, hnil.mpr hall]
  · intro e he
    rcases hr : retainedOutcomes net p with _ | ⟨a, rest⟩
    · rw [searchAllSites, hr] at he
      injection he with he2
      injection he2 with he3
      exact he3.symm
    · exact absurd he (hcons a rest hr e)
  · intro r
    rw [retainedOutcomes, List.mem_filterMap]
    constructor
    · rintro ⟨site, hs, hf⟩
      cases hsf : searchFlights (net site) (withSite p site) with
      | inr e => rw [hsf] at hf; simp at hf
      | inl r2 =>
        rw [hsf] at hf
        dsimp only at hf
        by_cases hc : r2.cheapest.isSome = true
        · rw [if_pos hc] at hf
          injection hf with hrr
          subst hrr
          exact ⟨site, hs, hsf, hc⟩
        · rw [if_neg hc] at hf
          simp at hf
    · rintro ⟨site, hs, hsf, hc⟩
      refine ⟨site, hs, ?_⟩
      dsimp only
      rw [hsf]
      dsimp only
      rw [if_pos hc]

/-- Witness instantiating C6: with every request timing out, the
comparator returns exactly the `NoResultsAnySite` error. -/
theorem no_results_any_site_witness :
    searchAllSites (fun _ => NetOutcome.timeout) pJfkLhr =
      some (Sum.inr noResultsError) :=
  (no_results_any_site (fun _ => NetOutcome.timeout) pJfkLhr).1.mpr (by
    intro site hs r hr
    cases hw : (withSite pJfkLhr site).website <;>
      simp [searchFlights, hw] at hr)

/-! ### Claim C9 -/

/-- C9: `search_all_sites` ignores the `website` field of its
parameters — it issues the same three per-site searches (Skyscanner,
Google Flights, Booking.com, in that order) and returns the same
outcome for any two parameter values agreeing on origin, destination
and departure date, whatever their `website` fields. -/
theorem website_field_independence (p q : FlightSearchParams)
    (net : WebsiteName → NetOutcome)
    (ho : p.origin = q.origin) (hd : p.destination = q.destination)
    (hdd : p.depart_date = q.depart_date) :
    issuedSearches p = issuedSearches q ∧
    (issuedSearches p).map FlightSearchParams.website = sitesToCheck ∧
    searchAllSites net p = searchAllSites net q := by
  obtain ⟨po, pd, pdt, pw⟩ := p
  obtain ⟨qo, qd, qdt, qw⟩ := q
  simp only at ho hd hdd
  subst ho
  subst hd
  subst hdd
  exact ⟨rfl, rfl, rfl⟩

/-- Witness instantiating C9 on two parameter records that differ only
in the `website` field. -/
theorem website_field_independence_witness :
    searchAllSites (fun _ => NetOutcome.timeout) pJfkLhr =
      searchAllSites (fun _ => NetOutcome.timeout)
        ⟨"JFK", "LHR", "2026-05-15", .compare⟩ :=
  (website_field_independence pJfkLhr ⟨"JFK", "LHR", "2026-05-15", .compare⟩
    (fun _ => NetOutcome.timeout) rfl rfl rfl).2.2

/-! ### Claim C8 -/

/-- C8: the extractor skips hits with an empty URL; a kept hit's URL
must contain the configured domain as a substring of its lowercased
form (the three configured domains are themselves lowercase, making the
check case-insensitive in the URL); descriptions longer than 200
characters are truncated to their first 200 characters plus an ellipsis
marker while shorter ones pass unchanged; a hit whose `FlightResult`
construction fails (URL without an `http(s)://` scheme) is skipped; and
each hit is processed independently of the others. -/
theorem parse_results_extractor (cfg : WebsiteConfig) :
    (∀ item : RawHit, item.url = "" → convHit cfg item = none) ∧
    (∀ (item : RawHit) (r : FlightResult), convHit cfg item = some r →
      containsB cfg.domain.data (pyLower item.url).data = true ∧
      r.url = item.url ∧
      r.description = (if item.description.length > 200
        then String.mk (item.description.data.take 200) ++ "..."
        else item.description) ∧
      (item.description.length ≤ 200 → r.description = item.description)) ∧
    (∀ item : RawHit, (isPrefixB "http://".data item.url.data ||
        isPrefixB "https://".data item.url.data) = false →
      convHit cfg item = none) ∧
    (∀ (item : RawHit) (hits : List RawHit),
      parse_results (item :: hits) cfg =
        (match convHit cfg item with
         | none => parse_results hits cfg
         | some r => r :: parse_results hits cfg)) ∧
    (∀ w : WebsiteName, pyLower (siteConfigOf w).domain =
      (siteConfigOf w).domain) := by
  refine ⟨?_, ?_, ?_, ?_, ?_⟩
  · intro item h
    rw [convHit, if_pos (by rw [h]; rfl)]
  · intro item r h
    rw [convHit] at h
    by_cases he : (item.url == "") = true
    · rw [if_pos he] at h
      exact absurd h (by simp)
    · rw [if_neg he] at h
      dsimp only at h
      by_cases hdm : containsB cfg.domain.data (pyLower item.url).data = true
      · rw [if_pos hdm] at h
        by_cases hs : (isPrefixB "http://".data item.url.data ||
            isPrefixB "https://".data item.url.data) = true
        · rw [if_pos hs] at h
          injection h with hr
          subst hr
          refine ⟨hdm, rfl, ?_, ?_⟩
          · show truncateDesc item.description = _
            rw [truncateDesc]
          · intro hlen
            show truncateDesc item.description = _
            rw [truncateDesc, if_neg (by omega)]
        · rw [if_neg hs] at h
          exact absurd h (by simp)
      · rw [if_neg hdm] at h
        exact absurd h (by simp)
  · intro item hx
    rw [convHit]
    by_cases he : (item.url == "") = true
    · rw [if_pos he]
    · rw [if_neg he]
      dsimp only
      by_cases hdm : containsB cfg.domain.data (pyLower item.url).data = true
      · rw [if_pos hdm, if_neg (by rw [hx]; simp)]
      · rw [if_neg hdm]
  · intro item hits
    rw [parse_results, parse_results, List.filterMap_cons]
    cases convHit cfg item <;> rfl
  · intro w
    cases w <;> decide

/-- Concrete kept hit for the C8 witness; the mixed-case URL checks the
case-insensitive domain test. -/
def c8item : RawHit := ⟨"Deal", "Fly for $99", "https://www.SkyScanner.com/uk"⟩

/-- The `FlightResult` the extractor builds from `c8item`. -/
def c8res : FlightResult :=
  ⟨"Deal", "https://www.SkyScanner.com/uk", "Fly for $99", some "$99",
    "Skyscanner"⟩

/-- Witness instantiating C8: an empty-URL hit is skipped, and a kept
mixed-case in-domain hit satisfies the URL/description conclusions. -/
theorem parse_results_extractor_witness :
    convHit (siteConfigOf .skyscanner) ⟨"t", "d", ""⟩ = none ∧
    (containsB (siteConfigOf .skyscanner).domain.data
        (pyLower c8item.url).data = true ∧
      c8res.url = c8item.url ∧
      c8res.description = (if c8item.description.length > 200
        then String.mk (c8item.description.data.take 200) ++ "..."
        else c8item.description) ∧
      (c8item.description.length ≤ 200 →
        c8res.description = c8item.description)) :=
  ⟨(parse_results_extractor (siteConfigOf .skyscanner)).1 ⟨"t", "d", ""⟩ rfl,
    (parse_results_extractor (siteConfigOf .skyscanner)).2.1 c8item c8res
      (by decide)⟩

/-! ### Claim C1 -/

/-- The comparison row built for a retained outcome, as a total
function: on retained outcomes `cheapest` and its price are always
present (proved below), so the `getD` defaults are never exercised. -/
def rowOfD (b : String) (r : SearchResponse) : ComparisonItem :=
  ⟨r.website, (r.cheapest.bind FlightResult.price).getD "",
    ((r.cheapest.map FlightResult.url).getD ""), r.website == b⟩

theorem retained_cheapest {net : WebsiteName → NetOutcome}
    {p : FlightSearchParams} {r : SearchResponse}
    (h : r ∈ retainedOutcomes net p) :
    ∃ c pr, r.cheapest = some c ∧ c.price = some pr := by
  rw [retainedOutcomes, List.mem_filterMap] at h
  obtain ⟨site, hs, hf⟩ := h
  cases hsf : searchFlights (net site) (withSite p site) with
  | inr e => rw [hsf] at hf; simp at hf
  | inl r2 =>
    rw [hsf] at hf
    dsimp only at hf
    by_cases hc : r2.cheapest.isSome = true
    · rw [if_pos hc] at hf
      injection hf with hrr
      subst hrr
      obtain ⟨c, hc2⟩ := Option.isSome_iff_exists.mp hc
      obtain ⟨-, hits, -, hr2⟩ := searchFlights_inl hsf
      have hinv := (okResponse_invariant (siteConfigOf (withSite p site).website)
        (buildQuery (siteConfigOf (withSite p site).website) (withSite p site))
        hits).2.2 c (by rw [← hr2]; exact hc2)
      obtain ⟨-, -, hps⟩ := hinv
      obtain ⟨pr, hpr⟩ := Option.isSome_iff_exists.mp hps
      exact ⟨c, pr, hc2, hpr⟩
    · rw [if_neg hc] at hf
      simp at hf

theorem mkRow_eq {b : String} {r : SearchResponse} {c : FlightResult}
    {pr : String} (hc : r.cheapest = some c) (hp : c.price = some pr) :
    mkRow b r = some (rowOfD b r) := by
  simp [mkRow, rowOfD, hc, hp]

theorem rowsFor_eq_map {b : String} {L : List SearchResponse}
    (h : ∀ r ∈ L, ∃ c pr, r.cheapest = some c ∧ c.price = some pr) :
    rowsFor b L = some (L.map (rowOfD b)) := by
  induction L with
  | nil => rfl
  | cons r rs ih =>
    obtain ⟨c, pr, hc, hp⟩ := h r (List.mem_cons_self _ _)
    rw [rowsFor, mkRow_eq hc hp, ih (fun x hx => h x (List.mem_cons_of_mem _ hx))]
    rfl

theorem mkBest_eq {r : SearchResponse} {c : FlightResult} {pr : String}
    (hc : r.cheapest = some c) (hp : c.price = some pr) :
    mkBest r = some ⟨r.website, pr, c.url, c.title⟩ := by
  simp [mkBest, hc, hp]

/-- C1: when at least one site is retained, `search_all_sites` succeeds
with: the best deal being the retained outcome of minimum numeric
cheapest price, ties broken by the first one encountered in the fixed
site order (everything before it in the retained list is strictly more
expensive, nothing anywhere is cheaper); exactly one comparison row per
retained outcome (a permutation of the per-outcome rows) whose `is_best`
flag is set exactly on rows whose site equals the best deal's site; the
rows sorted ascending by the numeric parse of their price text; and
`sites_checked` equal to the number of retained outcomes. -/
theorem search_all_sites_comparison (net : WebsiteName → NetOutcome)
    (p : FlightSearchParams) (hne : retainedOutcomes net p ≠ []) :
    ∃ (resp : ComparisonResponse) (best : SearchResponse)
      (pre post : List SearchResponse),
      searchAllSites net p = some (Sum.inl resp) ∧
      retainedOutcomes net p = pre ++ best :: post ∧
      (∀ r ∈ pre, kLt (respKey best) (respKey r) = true) ∧
      (∀ r ∈ retainedOutcomes net p, kLt (respKey r) (respKey best) = false) ∧
      resp.sites_checked = (retainedOutcomes net p).length ∧
      resp.all_results = retainedOutcomes net p ∧
      (∃ c pr, best.cheapest = some c ∧ c.price = some pr ∧
        resp.best_deal = ⟨best.website, pr, c.url, c.title⟩) ∧
      resp.comparison.Perm
        ((retainedOutcomes net p).map (rowOfD best.website)) ∧
      resp.comparison.Pairwise
        (fun a b => kLt (rowKey b) (rowKey a) = false) ∧
      (∀ row ∈ resp.comparison,
        row.is_best = (row.website == best.website)) := by
  rcases hall : retainedOutcomes net p with _ | ⟨a, rest⟩
  · exact absurd hall hne
  · have hinv : ∀ r ∈ a :: rest,
        ∃ c pr, r.cheapest = some c ∧ c.price = some pr := by
      intro r hr
      exact retained_cheapest (by rw [hall]; exact hr)
    obtain ⟨pre, post, hsplit, hpre, hallmin⟩ := minFold_split respKey rest a
    have hbmem : minFold respKey a rest ∈ a :: rest := by
      rw [hsplit]
      exact List.mem_append_right _ (List.mem_cons_self _ _)
    obtain ⟨c, pr, hc, hp⟩ := hinv _ hbmem
    have hfilter : (a :: rest).filter (fun r => r.cheapest.isSome) =
        a :: rest := by
      rw [List.filter_eq_self]
      intro r hr
      obtain ⟨c2, -, hc2, -⟩ := hinv r hr
      rw [hc2]
      rfl
    have hrows : rowsFor (minFold respKey a rest).website (a :: rest) =
        some ((a :: rest).map (rowOfD (minFold respKey a rest).website)) :=
      rowsFor_eq_map hinv
    have hbd := mkBest_eq hc hp
    have hsas : searchAllSites net p = some (Sum.inl
        ⟨"comparison", (a :: rest).length,
          iSort rowKey ((a :: rest).map (rowOfD (minFold respKey a rest).website)),
          ⟨(minFold respKey a rest).website, pr, c.url, c.title⟩,
          a :: rest⟩) := by
      rw [searchAllSites, hall]
      show comparisonOf a rest = _
      rw [comparisonOf]
      rw [hfilter, hrows, hbd]
    refine ⟨_, minFold respKey a rest, pre, post, hsas, hsplit,
      hpre, hallmin, rfl, rfl,
      ⟨c, pr, hc, hp, rfl⟩, ?_, iSort_sorted _ _, ?_⟩
    · exact iSort_perm _ _
    · intro row hrow
      have hmem : row ∈ (a :: rest).map (rowOfD (minFold respKey a rest).website) :=
        (iSort_perm rowKey _).mem_iff.mp hrow
      obtain ⟨r, -, hr⟩ := List.mem_map.mp hmem
      rw [← hr]
      rfl

/-- Per-site payloads realizing the spec's comparison example: a `$300`
Skyscanner hit, a `$250` Google Flights hit, and an empty Booking.com
result list (dropped). -/
def c1net : WebsiteName → NetOutcome
  | .skyscanner => .ok [⟨"Sky flight deal", "Book direct flights from $300 return",
      "https://www.skyscanner.com/routes/jfk-lhr"⟩]
  | .google => .ok [⟨"Google flight deal", "Direct flights from $250 return",
      "https://www.google.com/travel/flights/search"⟩]
  | .booking => .ok []
  | .compare => .timeout

/-- Witness instantiating C1 on the spec's comparison example: two
sites checked, Google Flights is the best deal, rows ordered
[Google, Skyscanner] with `is_best` only on Google; the nonemptiness
hypothesis of the comparison theorem is discharged on this input. -/
theorem search_all_sites_comparison_witness :
    (match searchAllSites c1net pJfkLhr with
      | some (Sum.inl resp) =>
        resp.sites_checked == 2 &&
        resp.best_deal.website == "Google Flights" &&
        (resp.comparison.map fun (row : ComparisonItem) =>
          (row.website, row.cheapest_price, row.is_best)) ==
          [("Google Flights", "$250", true), ("Skyscanner", "$300", false)]
      | _ => false) = true ∧
    searchAllSites c1net pJfkLhr ≠ some (Sum.inr noResultsError) := by
  refine ⟨by decide, ?_⟩
  obtain ⟨resp, best, pre, post, hsas, -⟩ :=
    search_all_sites_comparison c1net pJfkLhr (by decide)
  rw [hsas]
  simp
